import Mathlib

/-!
Verification of the Aquora heavy-metal pollution index pipeline.

The TypeScript core (`src/lib/calculations.ts` and the result rehydration in
`src/pages/Results.tsx`) is shallowly embedded below.  JavaScript numbers are
modelled as exact rationals extended with the IEEE special values `Infinity`,
`-Infinity` and `NaN` (float rounding is idealised away; all quantities the
pipeline manipulates are exact decimals in the model).  JavaScript cell values
(number, string, boolean, null, undefined) are modelled by `JVal`; rows are
association lists from column names to values.  Property access is modelled as
own-key lookup (prototype-chain lookups are out of scope).  `String.prototype
.toLowerCase` is modelled on the ASCII range, which covers every key the
pipeline compares.
-/

-- The Batteries rational operations are `@[irreducible]`, which blocks
-- `decide` on closed rational computations; re-marking them `semireducible`
-- restores kernel evaluation without changing any definition.
attribute [local semireducible] Rat.add Rat.mul Rat.inv Rat.sub Rat.ofScientific

namespace Aquora

/-- A JavaScript number: an exact rational or one of the special values. -/
inductive JsNum where
  | fin (q : ℚ)
  | inf
  | neginf
  | nan
deriving DecidableEq

/-- Unary minus on JavaScript numbers. -/
def jsNeg : JsNum → JsNum
  | .fin q => .fin (-q)
  | .inf => .neginf
  | .neginf => .inf
  | .nan => .nan

/-- JavaScript `+` on numbers. -/
def jsAdd : JsNum → JsNum → JsNum
  | .nan, _ => .nan
  | _, .nan => .nan
  | .inf, .neginf => .nan
  | .neginf, .inf => .nan
  | .inf, _ => .inf
  | _, .inf => .inf
  | .neginf, _ => .neginf
  | _, .neginf => .neginf
  | .fin a, .fin b => .fin (a + b)

/-- JavaScript `*` on numbers. -/
def jsMul : JsNum → JsNum → JsNum
  | .nan, _ => .nan
  | _, .nan => .nan
  | .fin a, .fin b => .fin (a * b)
  | .inf, .inf => .inf
  | .inf, .neginf => .neginf
  | .neginf, .inf => .neginf
  | .neginf, .neginf => .inf
  | .inf, .fin b => if b = 0 then .nan else if 0 < b then .inf else .neginf
  | .fin a, .inf => if a = 0 then .nan else if 0 < a then .inf else .neginf
  | .neginf, .fin b => if b = 0 then .nan else if 0 < b then .neginf else .inf
  | .fin a, .neginf => if a = 0 then .nan else if 0 < a then .neginf else .inf

/-- JavaScript `/` on numbers (the model has a single zero, taken positive,
so `x / 0` follows the sign of `x` as JavaScript's `x / +0` does). -/
def jsDiv : JsNum → JsNum → JsNum
  | .nan, _ => .nan
  | _, .nan => .nan
  | .inf, .inf => .nan
  | .inf, .neginf => .nan
  | .neginf, .inf => .nan
  | .neginf, .neginf => .nan
  | .inf, .fin b => if 0 ≤ b then .inf else .neginf
  | .neginf, .fin b => if 0 ≤ b then .neginf else .inf
  | .fin _, .inf => .fin 0
  | .fin _, .neginf => .fin 0
  | .fin a, .fin b =>
    if b = 0 then (if a = 0 then .nan else if 0 < a then .inf else .neginf)
    else .fin (a / b)

/-- JavaScript `<` on numbers (`NaN` compares false). -/
def jsLt : JsNum → JsNum → Bool
  | .nan, _ => false
  | _, .nan => false
  | .fin a, .fin b => decide (a < b)
  | .neginf, .neginf => false
  | .neginf, _ => true
  | _, .neginf => false
  | .inf, _ => false
  | .fin _, .inf => true

/-- JavaScript `Math.round`: rounds half toward positive infinity. -/
def jsRound : JsNum → JsNum
  | .fin q => .fin ((⌊q + 1/2⌋ : ℤ) : ℚ)
  | .inf => .inf
  | .neginf => .neginf
  | .nan => .nan

/-- Truthiness of a JavaScript number (`0` and `NaN` are falsy). -/
def jsTruthyNum : JsNum → Bool
  | .fin q => decide (q ≠ 0)
  | .nan => false
  | .inf => true
  | .neginf => true

/-- A JavaScript scalar cell value. -/
inductive JVal where
  | num (x : JsNum)
  | str (s : String)
  | bool (b : Bool)
  | jnull
  | undefined
deriving DecidableEq

/-- The ECMAScript WhiteSpace and LineTerminator code points removed by
`String.prototype.trim` and ignored by `Number(string)`. -/
def isJsWhitespace (c : Char) : Bool :=
  (9 ≤ c.toNat && c.toNat ≤ 13) || c.toNat = 32 || c.toNat = 160 ||
  c.toNat = 0x1680 || (0x2000 ≤ c.toNat && c.toNat ≤ 0x200A) ||
  c.toNat = 0x2028 || c.toNat = 0x2029 || c.toNat = 0x202F ||
  c.toNat = 0x205F || c.toNat = 0x3000 || c.toNat = 0xFEFF

/-- Models `String.prototype.trim`. -/
def jsTrim (s : String) : String :=
  String.mk (((s.data.dropWhile isJsWhitespace).reverse.dropWhile isJsWhitespace).reverse)

def isDecDigit (c : Char) : Bool := 48 ≤ c.toNat && c.toNat ≤ 57

def isHexDigit (c : Char) : Bool :=
  (48 ≤ c.toNat && c.toNat ≤ 57) || (97 ≤ c.toNat && c.toNat ≤ 102) ||
  (65 ≤ c.toNat && c.toNat ≤ 70)

def isOctDigit (c : Char) : Bool := 48 ≤ c.toNat && c.toNat ≤ 55

def isBinDigit (c : Char) : Bool := 48 ≤ c.toNat && c.toNat ≤ 49

/-- Numeric value of a (dec/hex) digit character. -/
def digitVal (c : Char) : Nat :=
  if c.toNat ≤ 57 then c.toNat - 48
  else if 97 ≤ c.toNat then c.toNat - 87
  else c.toNat - 55

def decDigitsToNat (ds : List Char) : Nat :=
  ds.foldl (fun a c => 10 * a + digitVal c) 0

def radixDigitsToNat (base : Nat) (ds : List Char) : Nat :=
  ds.foldl (fun a c => base * a + digitVal c) 0

def parseSignedDigits : List Char → Option ℤ
  | '+' :: ds => if ds ≠ [] ∧ ds.all isDecDigit then some (decDigitsToNat ds : ℤ) else none
  | '-' :: ds => if ds ≠ [] ∧ ds.all isDecDigit then some (-(decDigitsToNat ds : ℤ)) else none
  | ds => if ds ≠ [] ∧ ds.all isDecDigit then some (decDigitsToNat ds : ℤ) else none

/-- The optional exponent suffix of an ECMAScript decimal literal;
`some 0` on empty input, `none` when the suffix is malformed. -/
def parseExpPart : List Char → Option ℤ
  | [] => some 0
  | 'e' :: r => parseSignedDigits r
  | 'E' :: r => parseSignedDigits r
  | _ => none

def tenPow (e : ℤ) : ℚ :=
  if 0 ≤ e then ((10 ^ e.toNat : ℕ) : ℚ) else ((10 ^ (-e).toNat : ℕ) : ℚ)⁻¹

/-- An unsigned ECMAScript decimal literal `digits [. digits] [exp]`,
consuming the whole input. -/
def parseDecBody (cs : List Char) : Option ℚ :=
  let ds := cs.takeWhile isDecDigit
  let rest := cs.dropWhile isDecDigit
  match rest with
  | '.' :: rest2 =>
    let fs := rest2.takeWhile isDecDigit
    let rest3 := rest2.dropWhile isDecDigit
    if ds = [] ∧ fs = [] then none
    else
      match parseExpPart rest3 with
      | some e =>
        some (((decDigitsToNat ds : ℚ) +
          (decDigitsToNat fs : ℚ) / ((10 ^ fs.length : ℕ) : ℚ)) * tenPow e)
      | none => none
  | _ =>
    if ds = [] then none
    else
      match parseExpPart rest with
      | some e => some ((decDigitsToNat ds : ℚ) * tenPow e)
      | none => none

/-- An unsigned numeric literal body: `Infinity` or a decimal literal. -/
def parseUnsignedNum (cs : List Char) : Option JsNum :=
  if cs = "Infinity".data then some .inf
  else (parseDecBody cs).map .fin

/-- A decimal literal or `Infinity`, with an optional sign. -/
def signedNum (cs : List Char) : JsNum :=
  match cs with
  | '+' :: r => match parseUnsignedNum r with | some v => v | none => .nan
  | '-' :: r => match parseUnsignedNum r with | some v => jsNeg v | none => .nan
  | _ => match parseUnsignedNum cs with | some v => v | none => .nan

/-- ECMAScript `Number(string)` on an already-trimmed character list:
empty means `0`, `0x`/`0o`/`0b` radix literals are unsigned, otherwise an
optionally signed decimal literal or `Infinity`; anything else is `NaN`. -/
def jsStrToNumCore (cs : List Char) : JsNum :=
  match cs with
  | [] => .fin 0
  | '0' :: c :: rest =>
    if c = 'x' ∨ c = 'X' then
      if rest ≠ [] ∧ rest.all isHexDigit then .fin (radixDigitsToNat 16 rest) else .nan
    else if c = 'o' ∨ c = 'O' then
      if rest ≠ [] ∧ rest.all isOctDigit then .fin (radixDigitsToNat 8 rest) else .nan
    else if c = 'b' ∨ c = 'B' then
      if rest ≠ [] ∧ rest.all isBinDigit then .fin (radixDigitsToNat 2 rest) else .nan
    else signedNum cs
  | _ => signedNum cs

/-- ECMAScript `Number(string)` (which itself ignores surrounding whitespace). -/
def jsStrToNum (s : String) : JsNum :=
  jsStrToNumCore (jsTrim s).data

def stripTrailingZeros (s : String) : String :=
  String.mk (s.data.reverse.dropWhile (· == '0')).reverse

def padToLength (s : String) (len : Nat) : String :=
  String.mk (List.replicate (len - s.data.length) '0' ++ s.data)

/-- Decimal rendering of an exact rational, matching JavaScript number
printing on the integers and finite decimals that actually reach
`toString` in this pipeline. -/
def ratDecimalString (q : ℚ) : String :=
  let sign := if q < 0 then "-" else ""
  let n := q.num.natAbs
  let d := q.den
  if d = 1 then sign ++ Nat.repr n
  else if d ∣ 10 ^ d then
    let scaled := n * ((10 ^ d) / d)
    sign ++ Nat.repr (scaled / 10 ^ d) ++ "." ++
      stripTrailingZeros (padToLength (Nat.repr (scaled % 10 ^ d)) d)
  else sign ++ Nat.repr n ++ "/" ++ Nat.repr d

/-- JavaScript `Number.prototype.toString`. -/
def jsNumToString : JsNum → String
  | .nan => "NaN"
  | .inf => "Infinity"
  | .neginf => "-Infinity"
  | .fin q => ratDecimalString q

/-- JavaScript optional-chained `v?.toString()`: `none` for null/undefined. -/
def optToString : JVal → Option String
  | .jnull => none
  | .undefined => none
  | .str s => some s
  | .num x => some (jsNumToString x)
  | .bool b => some (if b then "true" else "false")

/-- JavaScript `Number(String(v).trim())`.  `String` of a number round-trips
(`Number(String(x)) === x` for every number `x`), `String(null)`,
`String(undefined)` and `String(bool)` all fail to parse, giving `NaN`. -/
def jsValCoerce : JVal → JsNum
  | .num x => x
  | .str s => jsStrToNum s
  | .bool _ => .nan
  | .jnull => .nan
  | .undefined => .nan

/-- JavaScript truthiness of a scalar value. -/
def jsTruthy : JVal → Bool
  | .num x => jsTruthyNum x
  | .str s => decide (s ≠ "")
  | .bool b => b
  | .jnull => false
  | .undefined => false

/-- One input row: an association list from column name to cell value,
modelling a plain JavaScript object (keys unique, own properties only). -/
abbrev Row := List (String × JVal)

/-- Property read `row[k]`: `undefined` when the key is absent. -/
def getVal (r : Row) (k : String) : JVal :=
  match r.find? (fun p => p.1 == k) with
  | some p => p.2
  | none => .undefined

/-- Models `k in row` / `hasOwnProperty`. -/
def hasKey (r : Row) (k : String) : Bool :=
  (r.find? (fun p => p.1 == k)).isSome

/-- Models `Object.keys(row)` (insertion order). -/
def rowKeys (r : Row) : List String :=
  r.map Prod.fst

/-- Removing a column from a row. -/
def eraseKey (k : String) : Row → Row
  | [] => []
  | p :: rest => if p.1 == k then eraseKey k rest else p :: eraseKey k rest

/-- Functional update of one key (spread-with-override): replaces the value
in place when the key is present, appends the property otherwise. -/
def setKey : Row → String → JVal → Row
  | [], k, v => [(k, v)]
  | p :: rest, k, v => if p.1 == k then (k, v) :: rest else p :: setKey rest k v

/-- ASCII lowering of one character. -/
def lowerChar (c : Char) : Char :=
  if 65 ≤ c.toNat ∧ c.toNat ≤ 90 then Char.ofNat (c.toNat + 32) else c

/-- Models `String.prototype.toLowerCase` on the ASCII range. -/
def toLowerCase (s : String) : String :=
  String.mk (s.data.map lowerChar)

/-- Models `Array.prototype.map` with the element index, as used by
`samples.map((sample, index) => ...)`. -/
def mapWithIndex (f : Nat → α → β) : Nat → List α → List β
  | _, [] => []
  | i, a :: as => f i a :: mapWithIndex f (i + 1) as

namespace Calculations

/-- The WHO guideline table from `calculations.ts` (mg/L), as exact decimals. -/
def WHO_STANDARDS : List (String × ℚ) :=
  [("As", 0.01), ("Cd", 0.003), ("Cr", 0.05), ("Cu", 2.0), ("Fe", 0.3),
   ("Pb", 0.01), ("Mn", 0.4), ("Ni", 0.07), ("Zn", 3.0), ("Hg", 0.006)]

/-- The lookup `WHO_STANDARDS[metal] || 1` (an absent entry is `undefined`, a zero entry
would be falsy; both fall back to `1`). -/
def lookupStandard (metal : String) : ℚ :=
  match WHO_STANDARDS.find? (fun p => p.1 == metal) with
  | some p => if p.2 = 0 then 1 else p.2
  | none => 1

/-- The helper `parseNumber` from `calculations.ts`: `undefined` for null/undefined/empty
string, otherwise `Number(String(v).trim())`, with `undefined` for `NaN`. -/
def parseNumber (v : JVal) : Option JsNum :=
  if v = .undefined ∨ v = .jnull ∨ v = .str "" then none
  else
    let n := jsValCoerce v
    if n = .nan then none else some n

/-- The idiom `parseNumber(x) || 0`: `undefined` and falsy numbers become 0. -/
def orZero (o : Option JsNum) : JsNum :=
  match o with
  | some x => if jsTruthyNum x then x else .fin 0
  | none => .fin 0

/-- The helper `pickNumber` from `calculations.ts`: first candidate key present in the
sample whose value parses. -/
def pickNumber (sample : Row) : List String → Option JsNum
  | [] => none
  | key :: ks =>
    if hasKey sample key then
      match parseNumber (getVal sample key) with
      | some val => some val
      | none => pickNumber sample ks
    else pickNumber sample ks

/-- The body of `calculateHPI`'s `forEach` loop: one metal's update of the
`(weightedSum, totalWeight)` accumulator. -/
def hpiStep (sample : Row) (acc : JsNum × ℚ) (metal : String) : JsNum × ℚ :=
  let concentration := orZero (parseNumber (getVal sample metal))
  let standard := lookupStandard metal
  let weight := 1 / standard
  let subIndex := jsMul (jsDiv concentration (.fin standard)) (.fin 100)
  (jsAdd acc.1 (jsMul (.fin weight) subIndex), acc.2 + weight)

/-- The function `calculateHPI` from `calculations.ts`. -/
def calculateHPI (sample : Row) (metals : List String) : JsNum :=
  let acc := metals.foldl (hpiStep sample) (.fin 0, 0)
  if 0 < acc.2 then jsDiv acc.1 (.fin acc.2) else .fin 0

/-- The body of `calculateHEI`'s loop: add one concentration / standard ratio. -/
def heiStep (sample : Row) (sum : JsNum) (metal : String) : JsNum :=
  let concentration := orZero (parseNumber (getVal sample metal))
  let standard := lookupStandard metal
  jsAdd sum (jsDiv concentration (.fin standard))

/-- The function `calculateHEI` from `calculations.ts`. -/
def calculateHEI (sample : Row) (metals : List String) : JsNum :=
  metals.foldl (heiStep sample) (.fin 0)

/-- The body of `calculateCd`'s loop, duplicated in the source exactly as
`calculateHEI`'s. -/
def cdStep (sample : Row) (sum : JsNum) (metal : String) : JsNum :=
  let concentration := orZero (parseNumber (getVal sample metal))
  let standard := lookupStandard metal
  jsAdd sum (jsDiv concentration (.fin standard))

/-- The function `calculateCd` from `calculations.ts`. -/
def calculateCd (sample : Row) (metals : List String) : JsNum :=
  metals.foldl (cdStep sample) (.fin 0)

/-- The function `categorizeWaterQuality` from `calculations.ts`. -/
def categorizeWaterQuality (hpi : JsNum) : String :=
  if jsLt hpi (.fin 100) then "Safe"
  else if jsLt hpi (.fin 200) then "Slightly Polluted"
  else "Hazardous"

/-- The per-sample output record of `processWaterSamples`. -/
structure CalculationResult where
  id : String
  latitude : Option JsNum
  longitude : Option JsNum
  hpi : JsNum
  hei : JsNum
  cd : JsNum
  category : String
  metals : List (String × JsNum)
deriving DecidableEq

/-- The metadata exclusion list of `processWaterSamples`, lowercased. -/
def excludeKeys : List String :=
  (["id", "latitude", "longitude", "lat", "lon", "lng",
    "Latitude", "Longitude"]).map toLowerCase

/-- Metal-column inference: the keys of the first sample whose lowercasing is
not in the exclusion list. -/
def metalColumnsOf (firstSample : Row) : List String :=
  (rowKeys firstSample).filter (fun key => !(excludeKeys.contains (toLowerCase key)))

/-- Rounding to two decimals, `Math.round(x * 100) / 100`. -/
def round2 (x : JsNum) : JsNum :=
  jsDiv (jsRound (jsMul x (.fin 100))) (.fin 100)

/-- The id resolution, modelling the expression written in the source as
sample.id?.toString() with the positional fallback string. -/
def resolveId (sample : Row) (index : Nat) : String :=
  match optToString (getVal sample "id") with
  | some s => if s = "" then "Sample " ++ Nat.repr (index + 1) else s
  | none => "Sample " ++ Nat.repr (index + 1)

/-- The body of `samples.map((sample, index) => ...)`. -/
def processOne (metalColumns : List String) (index : Nat) (sample : Row) :
    CalculationResult :=
  let hpi := calculateHPI sample metalColumns
  let hei := calculateHEI sample metalColumns
  let cd := calculateCd sample metalColumns
  let category := categorizeWaterQuality hpi
  let metals := metalColumns.map
    (fun metal => (metal, orZero (parseNumber (getVal sample metal))))
  { id := resolveId sample index
    latitude := pickNumber sample ["latitude", "Latitude", "lat"]
    longitude := pickNumber sample ["longitude", "Longitude", "lon", "lng"]
    hpi := round2 hpi
    hei := round2 hei
    cd := round2 cd
    category := category
    metals := metals }

/-- The function `processWaterSamples` from `calculations.ts`. -/
def processWaterSamples (samples : List Row) : List CalculationResult :=
  match samples with
  | [] => []
  | firstSample :: _ =>
    mapWithIndex (processOne (metalColumnsOf firstSample)) 0 samples

end Calculations

namespace Results

/-- Latitude candidate keys of the rehydrator in `Results.tsx`. -/
def latKeys : List String := ["latitude", "Latitude", "lat", "Lat"]

/-- Longitude candidate keys of the rehydrator. -/
def lonKeys : List String := ["longitude", "Longitude", "lon", "lng", "Lon", "Lng"]

def hpiKeys : List String := ["hpi", "HPI", "hpi_value", "hpiValue", "hpi_val"]

def heiKeys : List String := ["hei", "HEI", "hei_value", "heiValue"]

def cdKeys : List String := ["cd", "Cd", "contamination_degree", "contaminationDegree"]

/-- The helper `pickNumber` from `Results.tsx` (returns `null`, here `none`, on failure;
skips empty/null/undefined cells and unparsable cells). -/
def pickNumber (obj : Row) : List String → Option JsNum
  | [] => none
  | k :: ks =>
    if hasKey obj k then
      let v := getVal obj k
      if v = .undefined ∨ v = .jnull ∨ v = .str "" then pickNumber obj ks
      else
        let n := jsValCoerce v
        if n = .nan then pickNumber obj ks else some n
    else pickNumber obj ks

/-- The helper `pickNumericAlt` from `Results.tsx` (textually the same body as its
`pickNumber`, duplicated in the source as well). -/
def pickNumericAlt (obj : Row) : List String → Option JsNum
  | [] => none
  | k :: ks =>
    if hasKey obj k then
      let v := getVal obj k
      if v = .undefined ∨ v = .jnull ∨ v = .str "" then pickNumericAlt obj ks
      else
        let n := jsValCoerce v
        if n = .nan then pickNumericAlt obj ks else some n
    else pickNumericAlt obj ks

/-- Nullish coalescing `a ?? b ?? ... ?? d`: the first non-nullish value,
else the default. -/
def coalesce : List JVal → JVal → JVal
  | [], d => d
  | v :: vs, d => if v = .jnull ∨ v = .undefined then coalesce vs d else v

/-- The value stored back into the record for a picked number (`null` when
the pick failed). -/
def optNumToJVal : Option JsNum → JVal
  | some x => .num x
  | none => .jnull

/-- The resolved id `r.id ?? r.sample_id ?? r.SampleID ?? r.Location ??
`sample-${idx + 1}``. -/
def resolveStoredId (r : Row) (idx : Nat) : JVal :=
  coalesce [getVal r "id", getVal r "sample_id", getVal r "SampleID", getVal r "Location"]
    (.str ("sample-" ++ Nat.repr (idx + 1)))

/-- The resolved category `r.category ?? r.Category ?? r.status ?? "Unknown"`. -/
def resolveStoredCategory (r : Row) : JVal :=
  coalesce [getVal r "category", getVal r "Category", getVal r "status"] (.str "Unknown")

/-- One record of `normalizeResults`: the original fields spread, with the
resolved fields overriding them. -/
def normalizeOne (idx : Nat) (r : Row) : Row :=
  setKey (setKey (setKey (setKey (setKey (setKey (setKey
    r "id" (resolveStoredId r idx))
    "latitude" (optNumToJVal (pickNumber r latKeys)))
    "longitude" (optNumToJVal (pickNumber r lonKeys)))
    "hpi" (optNumToJVal (pickNumericAlt r hpiKeys)))
    "hei" (optNumToJVal (pickNumericAlt r heiKeys)))
    "cd" (optNumToJVal (pickNumericAlt r cdKeys)))
    "category" (resolveStoredCategory r)

/-- The function `normalizeResults` from `Results.tsx`. -/
def normalizeResults (raw : List Row) : List Row :=
  mapWithIndex normalizeOne 0 raw

/-- The test `typeof v === "number"`. -/
def isNumberVal : JVal → Bool
  | .num _ => true
  | _ => false

/-- The post-normalization filter predicate of `Results.tsx`. -/
def surviveB (r : Row) : Bool :=
  jsTruthy (getVal r "id") &&
  ((isNumberVal (getVal r "latitude") && isNumberVal (getVal r "longitude")) ||
   isNumberVal (getVal r "hpi") || isNumberVal (getVal r "hei") ||
   isNumberVal (getVal r "cd"))

/-- The `filtered` records kept by the Results page. -/
def filteredResults (raw : List Row) : List Row :=
  (normalizeResults raw).filter surviveB

/-- The numeric fields of a (normalized) record, in the order latitude,
longitude, hpi, hei, cd. -/
def numericFields (r : Row) : List JVal :=
  [getVal r "latitude", getVal r "longitude", getVal r "hpi",
   getVal r "hei", getVal r "cd"]

end Results

/-! ### Specification-side definitions

These transcribe the formulas the specification states (`HPI = Σ(w·q) / Σw`
with `w = 1 / limit` and `q = (concentration / limit) * 100`), to be compared
with the embedded source functions. -/

/-- Sum of a list of JavaScript numbers. -/
def jsSum (l : List JsNum) : JsNum :=
  l.foldr jsAdd (.fin 0)

namespace Calculations

/-- The spec's weight `w = 1 / limit` for one metal. -/
def hpiWeight (metal : String) : ℚ :=
  1 / lookupStandard metal

/-- The spec's sub-index `q = (concentration / limit) * 100` for one metal. -/
def hpiSubIndex (sample : Row) (metal : String) : JsNum :=
  jsMul (jsDiv (orZero (parseNumber (getVal sample metal))) (.fin (lookupStandard metal)))
    (.fin 100)

/-- The spec's summand `w · q` for one metal. -/
def hpiTerm (sample : Row) (metal : String) : JsNum :=
  jsMul (.fin (hpiWeight metal)) (hpiSubIndex sample metal)

end Calculations

/-! ### Concrete example rows used by counterexamples and witnesses -/

/-- A sample whose HPI is 99.999: categorised from the unrounded value, but
stored rounded to 100.00. -/
def c1Row : Row := [("id", .str "S1"), ("X", .str "0.99999")]

/-- Two rows: the first has an id, the second supplies none. -/
def c5Rows : List Row := [[("id", .str "W1")], []]

/-- First row of the frozen-schema scenario (`Cd` absent from row 0). -/
def c6Row0 : Row := [("id", .str "S1"), ("Pb", .str "0.02")]

/-- Second row of the frozen-schema scenario (carries a `Cd` value). -/
def c6Row1 : Row := [("id", .str "S2"), ("Pb", .str "0.03"), ("Cd", .str "0.01")]

/-- A row whose recognised latitude cell is a whitespace-only string. -/
def c10Row : Row := [("latitude", .str " ")]

end Aquora

namespace Aquora

theorem jsAdd_fin_zero (x : JsNum) : jsAdd x (.fin 0) = x := by
  cases x <;> simp [jsAdd]

theorem jsAdd_zero_fin (x : JsNum) : jsAdd (.fin 0) x = x := by
  cases x <;> simp [jsAdd]

theorem jsAdd_assoc (a b c : JsNum) : jsAdd (jsAdd a b) c = jsAdd a (jsAdd b c) := by
  cases a <;> cases b <;> cases c <;> simp [jsAdd, add_assoc]

namespace Calculations

theorem lookupStandard_pos (metal : String) : 0 < lookupStandard metal := by
  unfold lookupStandard
  cases h : WHO_STANDARDS.find? (fun p => p.1 == metal) with
  | none => norm_num
  | some p =>
    have hp : p ∈ WHO_STANDARDS := List.mem_of_find?_eq_some h
    have hall : ∀ q ∈ WHO_STANDARDS, (0 : ℚ) < q.2 := by decide
    by_cases hz : p.2 = 0
    · simp [hz]
    · simp [hz]
      exact hall p hp

theorem hpiWeight_pos (metal : String) : 0 < hpiWeight metal :=
  div_pos one_pos (lookupStandard_pos metal)

theorem hpi_foldl (sample : Row) :
    ∀ (l : List String) (a : JsNum) (b : ℚ),
      l.foldl (hpiStep sample) (a, b) =
        (jsAdd a (jsSum (l.map (hpiTerm sample))), b + (l.map hpiWeight).sum) := by
  intro l
  induction l with
  | nil => intro a b; simp [jsSum, jsAdd_fin_zero]
  | cons m ms ih =>
    intro a b
    have hstep : hpiStep sample (a, b) m = (jsAdd a (hpiTerm sample m), b + hpiWeight m) := rfl
    calc (m :: ms).foldl (hpiStep sample) (a, b)
        = ms.foldl (hpiStep sample) (jsAdd a (hpiTerm sample m), b + hpiWeight m) := by
          rw [List.foldl_cons, hstep]
      _ = (jsAdd (jsAdd a (hpiTerm sample m)) (jsSum (ms.map (hpiTerm sample))),
            (b + hpiWeight m) + (ms.map hpiWeight).sum) := ih _ _
      _ = (jsAdd a (jsSum ((m :: ms).map (hpiTerm sample))),
            b + ((m :: ms).map hpiWeight).sum) := by
          simp [jsSum, jsAdd_assoc, add_assoc]

/-- C3: `calculateHPI` returns `Σ(w·q) / Σw` with `w = 1 / limit` and
`q = (concentration / limit) * 100` per metal, and exactly 0 for an empty
metal list, for any sample. -/
theorem calculateHPI_formula (sample : Row) (metals : List String) :
    calculateHPI sample metals =
      if metals = [] then .fin 0
      else jsDiv (jsSum (metals.map (hpiTerm sample)))
        (.fin ((metals.map hpiWeight).sum)) := by
  unfold calculateHPI
  rw [hpi_foldl]
  simp only [jsAdd_zero_fin, zero_add]
  by_cases h : metals = []
  · subst h
    simp [jsSum]
  · have hpos : 0 < (metals.map hpiWeight).sum := by
      refine List.sum_pos _ ?_ ?_
      · intro x hx
        obtain ⟨m, _, rfl⟩ := List.mem_map.mp hx
        exact hpiWeight_pos m
      · intro hc
        exact h (List.map_eq_nil_iff.mp hc)
    rw [if_pos hpos, if_neg h]

/-- C2: `calculateHEI` and `calculateCd` return the same number for every
sample and metal list (the source duplicates the loop verbatim). -/
theorem calculateHEI_eq_calculateCd (sample : Row) (metals : List String) :
    calculateHEI sample metals = calculateCd sample metals := rfl

/-- C4: `categorizeWaterQuality` maps `hpi < 100` to Safe,
`100 ≤ hpi < 200` to Slightly Polluted and `200 ≤ hpi` to Hazardous; the
boundary values 100 and 200 take the higher category. -/
theorem categorize_thresholds (q : ℚ) :
    (q < 100 → categorizeWaterQuality (.fin q) = "Safe") ∧
    (100 ≤ q → q < 200 → categorizeWaterQuality (.fin q) = "Slightly Polluted") ∧
    (200 ≤ q → categorizeWaterQuality (.fin q) = "Hazardous") := by
  refine ⟨fun h => ?_, fun h1 h2 => ?_, fun h => ?_⟩
  · simp [categorizeWaterQuality, jsLt, h]
  · simp [categorizeWaterQuality, jsLt, not_lt.mpr h1, h2]
  · have h1 : ¬ q < 100 := not_lt.mpr (le_trans (by norm_num) h)
    have h2 : ¬ q < 200 := not_lt.mpr h
    simp [categorizeWaterQuality, jsLt, h1, h2]

/-- C7 amended: `parseNumber` (a total function, so it never throws) returns
absent exactly for null, undefined, the empty string, or a parse that is
`NaN`; a non-`NaN` parse — including the non-finite `±Infinity` — is
returned. -/
theorem parseNumber_none_iff (v : JVal) :
    (parseNumber v = none ↔
      v = .undefined ∨ v = .jnull ∨ v = .str "" ∨ jsValCoerce v = .nan) ∧
    ∀ x, parseNumber v = some x → x ≠ .nan := by
  unfold parseNumber
  by_cases h : v = .undefined ∨ v = .jnull ∨ v = .str ""
  · rw [if_pos h]
    constructor
    · constructor
      · intro _; tauto
      · intro _; rfl
    · intro x hx; exact absurd hx (by simp)
  · rw [if_neg h]
    by_cases hn : jsValCoerce v = .nan
    · simp only [hn, if_pos rfl]
      constructor
      · constructor
        · intro _; tauto
        · intro _; rfl
      · intro x hx; exact absurd hx (by simp)
    · rw [if_neg hn]
      constructor
      · constructor
        · intro hx; exact absurd hx (by simp)
        · intro hor
          rcases hor with h1 | h1 | h1 | h1 <;> first
            | exact absurd (Or.inl h1) h
            | exact absurd (Or.inr (Or.inl h1)) h
            | exact absurd (Or.inr (Or.inr h1)) h
            | exact absurd h1 hn
      · intro x hx
        have : x = jsValCoerce v := by
          injection hx with hx'
          exact hx'.symm
        rw [this]; exact hn

/-- C7 counterexample: the input `"Infinity"` parses to a non-finite number,
yet `parseNumber` returns it instead of absent (the code tests only for
`NaN`). -/
theorem parseNumber_infinity :
    parseNumber (.str "Infinity") = some JsNum.inf ∧
    parseNumber (.str "Infinity") ≠ none := by decide

end Calculations

end Aquora

namespace Aquora

theorem jsTrim_of_all_ws {s : String} (h : ∀ c ∈ s.data, isJsWhitespace c = true) :
    jsTrim s = "" := by
  unfold jsTrim
  have h1 : s.data.dropWhile isJsWhitespace = [] := by
    rw [List.dropWhile_eq_nil_iff]
    exact h
  rw [h1]
  rfl

theorem getVal_hasKey {r : Row} {k : String} (h : getVal r k ≠ .undefined) :
    hasKey r k = true := by
  unfold getVal at h
  unfold hasKey
  cases hf : r.find? (fun p => p.1 == k) with
  | none => rw [hf] at h; exact absurd rfl h
  | some p => rfl

namespace Calculations

/-- C10: a non-empty whitespace-only string input makes `parseNumber` return
the number 0 rather than absent; hence a whitespace-only cell in a recognised
coordinate column yields coordinate 0 via `pickNumber`, and a whitespace-only
metal cell contributes concentration 0. -/
theorem parseNumber_whitespace (s : String) (row : Row)
    (hne : s ≠ "") (hws : ∀ c ∈ s.data, isJsWhitespace c = true) :
    parseNumber (.str s) = some (.fin 0) ∧
    (getVal row "latitude" = .str s →
      pickNumber row ["latitude", "Latitude", "lat"] = some (.fin 0)) ∧
    orZero (parseNumber (.str s)) = .fin 0 := by
  have hparse : parseNumber (.str s) = some (.fin 0) := by
    unfold parseNumber
    rw [if_neg (by simp [hne])]
    have hc : jsValCoerce (.str s) = .fin 0 := by
      show jsStrToNum s = .fin 0
      unfold jsStrToNum
      rw [jsTrim_of_all_ws hws]
      rfl
    rw [hc]
    rfl
  refine ⟨hparse, fun hlat => ?_, ?_⟩
  · unfold pickNumber
    rw [getVal_hasKey (by rw [hlat]; simp), if_pos rfl, hlat, hparse]
  · rw [hparse]; rfl

/-- C10 witness at `" "`. -/
theorem parseNumber_whitespace_witness :
    parseNumber (.str " ") = some (.fin 0) ∧
    pickNumber c10Row ["latitude", "Latitude", "lat"] = some (.fin 0) ∧
    orZero (parseNumber (.str " ")) = .fin 0 := by
  have h := parseNumber_whitespace " " c10Row (by decide) (by decide)
  exact ⟨h.1, h.2.1 (by decide), h.2.2⟩

end Calculations

theorem mapWithIndex_map (g : β → γ) (f : Nat → α → β) :
    ∀ (i : Nat) (l : List α),
      (mapWithIndex f i l).map g = mapWithIndex (fun j a => g (f j a)) i l := by
  intro i l
  induction l generalizing i with
  | nil => rfl
  | cons a as ih => simp [mapWithIndex, ih]

theorem mapWithIndex_const (g : α → β) :
    ∀ (i : Nat) (l : List α), mapWithIndex (fun _ a => g a) i l = l.map g := by
  intro i l
  induction l generalizing i with
  | nil => rfl
  | cons a as ih => simp [mapWithIndex, ih]

theorem mapWithIndex_length (f : Nat → α → β) :
    ∀ (i : Nat) (l : List α), (mapWithIndex f i l).length = l.length := by
  intro i l
  induction l generalizing i with
  | nil => rfl
  | cons a as ih => simp [mapWithIndex, ih]

theorem mapWithIndex_get (f : Nat → α → β) :
    ∀ (l : List α) (i0 j : Nat) (h : j < (mapWithIndex f i0 l).length)
      (h' : j < l.length),
      (mapWithIndex f i0 l).get ⟨j, h⟩ = f (i0 + j) (l.get ⟨j, h'⟩) := by
  intro l
  induction l with
  | nil => intro i0 j h h'; exact absurd h' (by simp)
  | cons a as ih =>
    intro i0 j h h'
    cases j with
    | zero => simp [mapWithIndex]
    | succ j' =>
      have hlen : j' < (mapWithIndex f (i0 + 1) as).length := by
        simpa [mapWithIndex] using h
      have hlen' : j' < as.length := by simpa using h'
      calc (mapWithIndex f i0 (a :: as)).get ⟨j' + 1, h⟩
          = (mapWithIndex f (i0 + 1) as).get ⟨j', hlen⟩ := rfl
        _ = f (i0 + 1 + j') (as.get ⟨j', hlen'⟩) := ih (i0 + 1) j' hlen hlen'
        _ = f (i0 + (j' + 1)) ((a :: as).get ⟨j' + 1, h'⟩) := by
            congr 1
            omega

theorem sample_placeholder_ne (n : Nat) : ("Sample " ++ Nat.repr n) ≠ "" := by
  intro h
  have h2 := congrArg String.length h
  rw [String.length_append] at h2
  have h7 : "Sample ".length = 7 := by decide
  have h0 : ("" : String).length = 0 := by decide
  rw [h7, h0] at h2
  omega

namespace Calculations

/-- C1 amended: in every record produced by `processWaterSamples`, `category`
is the categorisation of the *unrounded* HPI of its row, while the stored
`hpi` field is that value rounded to 2 decimals (so the two can disagree only
when rounding crosses a threshold). -/
theorem process_category_unrounded (samples : List Row) :
    (processWaterSamples samples).map (fun r => (r.category, r.hpi)) =
      samples.map (fun s =>
        (categorizeWaterQuality (calculateHPI s (metalColumnsOf (samples.headD []))),
         round2 (calculateHPI s (metalColumnsOf (samples.headD []))))) := by
  cases samples with
  | nil => rfl
  | cons r0 rest =>
    show (mapWithIndex (processOne (metalColumnsOf r0)) 0 (r0 :: rest)).map _ = _
    rw [mapWithIndex_map]
    exact mapWithIndex_const
      (fun s => (categorizeWaterQuality (calculateHPI s (metalColumnsOf r0)),
        round2 (calculateHPI s (metalColumnsOf r0)))) 0 (r0 :: rest)

/-- C1 counterexample: for the row with HPI = 99.999 the produced record has
category "Safe", but categorising its stored (rounded) hpi field, 100.00,
gives "Slightly Polluted". -/
theorem process_category_rounding_cex :
    (processWaterSamples [c1Row]).map
      (fun r => (r.category, categorizeWaterQuality r.hpi)) =
      [("Safe", "Slightly Polluted")] := by decide

/-- C5: empty input gives empty output without error; otherwise exactly one
result per input row, in input order, whose id is the row's id converted to a
string when that string is non-empty, and the 1-based positional placeholder
`Sample {i+1}` when the row supplies none (no id, or an empty one); the id is
never empty. -/
theorem process_ids (samples : List Row) :
    processWaterSamples ([] : List Row) = [] ∧
    (processWaterSamples samples).length = samples.length ∧
    ∀ (i : Nat) (h1 : i < samples.length)
      (h2 : i < (processWaterSamples samples).length),
      ((processWaterSamples samples).get ⟨i, h2⟩).id ≠ "" ∧
      (∀ s, optToString (getVal (samples.get ⟨i, h1⟩) "id") = some s → s ≠ "" →
        ((processWaterSamples samples).get ⟨i, h2⟩).id = s) ∧
      ((optToString (getVal (samples.get ⟨i, h1⟩) "id") = none ∨
        optToString (getVal (samples.get ⟨i, h1⟩) "id") = some "") →
        ((processWaterSamples samples).get ⟨i, h2⟩).id = "Sample " ++ Nat.repr (i + 1)) := by
  refine ⟨rfl, ?_, ?_⟩
  · cases samples with
    | nil => rfl
    | cons r0 rest => exact mapWithIndex_length _ 0 _
  · intro i h1 h2
    cases samples with
    | nil => exact absurd h1 (by simp)
    | cons r0 rest =>
      have hg : (processWaterSamples (r0 :: rest)).get ⟨i, h2⟩ =
          processOne (metalColumnsOf r0) (0 + i) ((r0 :: rest).get ⟨i, h1⟩) :=
        mapWithIndex_get _ (r0 :: rest) 0 i h2 h1
      rw [hg]
      have hid : (processOne (metalColumnsOf r0) (0 + i) ((r0 :: rest).get ⟨i, h1⟩)).id =
          resolveId ((r0 :: rest).get ⟨i, h1⟩) i := by
        show resolveId _ (0 + i) = resolveId _ i
        rw [Nat.zero_add]
      rw [hid]
      unfold resolveId
      cases ho : optToString (getVal ((r0 :: rest).get ⟨i, h1⟩) "id") with
      | none =>
        refine ⟨sample_placeholder_ne (i + 1), ?_, fun _ => rfl⟩
        intro s hs
        exact absurd hs (by simp)
      | some s =>
        dsimp only
        by_cases hs : s = ""
        · rw [if_pos hs]
          refine ⟨sample_placeholder_ne (i + 1), ?_, fun _ => rfl⟩
          intro s2 hs2 hs2ne
          have he : s = s2 := Option.some.inj hs2
          exact absurd (by rw [← he]; exact hs) hs2ne
        · rw [if_neg hs]
          refine ⟨hs, ?_, ?_⟩
          · intro s2 hs2 _
            exact Option.some.inj hs2
          · intro hcontra
            rcases hcontra with hc | hc
            · exact absurd hc (by simp)
            · exact absurd (Option.some.inj hc) hs

end Calculations

end Aquora

namespace Aquora

theorem getVal_cons (p : String × JVal) (rest : Row) (k : String) :
    getVal (p :: rest) k = if p.1 == k then p.2 else getVal rest k := by
  by_cases hp : (p.1 == k) = true
  · simp [getVal, List.find?, hp]
  · simp [getVal, List.find?, hp]

theorem hasKey_cons (p : String × JVal) (rest : Row) (k : String) :
    hasKey (p :: rest) k = (p.1 == k || hasKey rest k) := by
  by_cases hp : (p.1 == k) = true
  · simp [hasKey, List.find?, hp]
  · simp [hasKey, List.find?, hp]

theorem getVal_setKey_self (r : Row) (k : String) (v : JVal) :
    getVal (setKey r k v) k = v := by
  induction r with
  | nil => simp [setKey, getVal_cons]
  | cons p rest ih =>
    by_cases hp : (p.1 == k) = true
    · simp [setKey, hp, getVal_cons]
    · simp [setKey, hp, getVal_cons, ih]

theorem getVal_setKey_ne (r : Row) {k k' : String} (v : JVal) (h : k' ≠ k) :
    getVal (setKey r k v) k' = getVal r k' := by
  have hkk : (k == k') = false := beq_eq_false_iff_ne.mpr (Ne.symm h)
  induction r with
  | nil => simp [setKey, getVal_cons, hkk, getVal]
  | cons p rest ih =>
    by_cases hp : (p.1 == k) = true
    · have hp1 : p.1 = k := eq_of_beq hp
      simp [setKey, hp, getVal_cons, hkk, hp1]
    · simp [setKey, hp, getVal_cons, ih]

theorem hasKey_setKey_self (r : Row) (k : String) (v : JVal) :
    hasKey (setKey r k v) k = true := by
  induction r with
  | nil => simp [setKey, hasKey_cons]
  | cons p rest ih =>
    by_cases hp : (p.1 == k) = true
    · simp [setKey, hp, hasKey_cons]
    · simp [setKey, hp, hasKey_cons, ih]

theorem hasKey_setKey_ne (r : Row) {k k' : String} (v : JVal) (h : k' ≠ k) :
    hasKey (setKey r k v) k' = hasKey r k' := by
  have hkk : (k == k') = false := beq_eq_false_iff_ne.mpr (Ne.symm h)
  induction r with
  | nil => simp [setKey, hasKey_cons, hkk, hasKey]
  | cons p rest ih =>
    by_cases hp : (p.1 == k) = true
    · have hp1 : p.1 = k := eq_of_beq hp
      simp [setKey, hp, hasKey_cons, hkk, hp1]
    · simp [setKey, hp, hasKey_cons, ih]

theorem getVal_eraseKey_ne (r : Row) {k k' : String} (h : k' ≠ k) :
    getVal (eraseKey k r) k' = getVal r k' := by
  induction r with
  | nil => rfl
  | cons p rest ih =>
    by_cases hp : (p.1 == k) = true
    · have hp1 : p.1 = k := eq_of_beq hp
      have hne : (p.1 == k') = false := by
        rw [hp1]
        exact beq_eq_false_iff_ne.mpr (Ne.symm h)
      simp [eraseKey, hp, getVal_cons, hne, ih]
    · simp [eraseKey, hp, getVal_cons, ih]

theorem hasKey_eraseKey_ne (r : Row) {k k' : String} (h : k' ≠ k) :
    hasKey (eraseKey k r) k' = hasKey r k' := by
  induction r with
  | nil => rfl
  | cons p rest ih =>
    by_cases hp : (p.1 == k) = true
    · have hp1 : p.1 = k := eq_of_beq hp
      have hne : (p.1 == k') = false := by
        rw [hp1]
        exact beq_eq_false_iff_ne.mpr (Ne.symm h)
      simp [eraseKey, hp, hasKey_cons, hne, ih]
    · simp [eraseKey, hp, hasKey_cons, ih]

namespace Results

theorem normalizeOne_id (idx : Nat) (r : Row) :
    getVal (normalizeOne idx r) "id" = resolveStoredId r idx := by
  unfold normalizeOne
  rw [getVal_setKey_ne _ _ (by decide), getVal_setKey_ne _ _ (by decide),
    getVal_setKey_ne _ _ (by decide), getVal_setKey_ne _ _ (by decide),
    getVal_setKey_ne _ _ (by decide), getVal_setKey_ne _ _ (by decide),
    getVal_setKey_self]

theorem normalizeOne_lat (idx : Nat) (r : Row) :
    getVal (normalizeOne idx r) "latitude" = optNumToJVal (pickNumber r latKeys) := by
  unfold normalizeOne
  rw [getVal_setKey_ne _ _ (by decide), getVal_setKey_ne _ _ (by decide),
    getVal_setKey_ne _ _ (by decide), getVal_setKey_ne _ _ (by decide),
    getVal_setKey_ne _ _ (by decide), getVal_setKey_self]

theorem normalizeOne_lon (idx : Nat) (r : Row) :
    getVal (normalizeOne idx r) "longitude" = optNumToJVal (pickNumber r lonKeys) := by
  unfold normalizeOne
  rw [getVal_setKey_ne _ _ (by decide), getVal_setKey_ne _ _ (by decide),
    getVal_setKey_ne _ _ (by decide), getVal_setKey_ne _ _ (by decide),
    getVal_setKey_self]

theorem normalizeOne_hpi (idx : Nat) (r : Row) :
    getVal (normalizeOne idx r) "hpi" = optNumToJVal (pickNumericAlt r hpiKeys) := by
  unfold normalizeOne
  rw [getVal_setKey_ne _ _ (by decide), getVal_setKey_ne _ _ (by decide),
    getVal_setKey_ne _ _ (by decide), getVal_setKey_self]

theorem normalizeOne_hei (idx : Nat) (r : Row) :
    getVal (normalizeOne idx r) "hei" = optNumToJVal (pickNumericAlt r heiKeys) := by
  unfold normalizeOne
  rw [getVal_setKey_ne _ _ (by decide), getVal_setKey_ne _ _ (by decide),
    getVal_setKey_self]

theorem normalizeOne_cd (idx : Nat) (r : Row) :
    getVal (normalizeOne idx r) "cd" = optNumToJVal (pickNumericAlt r cdKeys) := by
  unfold normalizeOne
  rw [getVal_setKey_ne _ _ (by decide), getVal_setKey_self]

theorem isNumberVal_optNum (o : Option JsNum) :
    isNumberVal (optNumToJVal o) = o.isSome := by
  cases o <;> rfl

/-- C8: a record survives the rehydration filter exactly when its resolved id
is truthy and it has either both coordinates or at least one index. -/
theorem filter_survival (raw : List Row) (nr : Row) :
    (nr ∈ filteredResults raw ↔ nr ∈ normalizeResults raw ∧ surviveB nr = true) ∧
    ∀ (idx : Nat) (r : Row),
      surviveB (normalizeOne idx r) =
        (jsTruthy (resolveStoredId r idx) &&
         (((pickNumber r latKeys).isSome && (pickNumber r lonKeys).isSome) ||
          (pickNumericAlt r hpiKeys).isSome ||
          (pickNumericAlt r heiKeys).isSome ||
          (pickNumericAlt r cdKeys).isSome)) := by
  constructor
  · unfold filteredResults
    exact List.mem_filter
  · intro idx r
    unfold surviveB
    rw [normalizeOne_id, normalizeOne_lat, normalizeOne_lon, normalizeOne_hpi,
      normalizeOne_hei, normalizeOne_cd, isNumberVal_optNum, isNumberVal_optNum,
      isNumberVal_optNum, isNumberVal_optNum, isNumberVal_optNum]

end Results

end Aquora

namespace Aquora

namespace Results

theorem pickNumericAlt_eq_pickNumber (obj : Row) (keys : List String) :
    pickNumericAlt obj keys = pickNumber obj keys := by
  induction keys with
  | nil => rfl
  | cons k ks ih =>
    simp only [pickNumericAlt, pickNumber]
    rw [ih]

/-- One unfolding step of `pickNumber` on a cons cell. -/
theorem pickNumber_cons (obj : Row) (k : String) (ks : List String) :
    pickNumber obj (k :: ks) =
      if hasKey obj k then
        (if getVal obj k = .undefined ∨ getVal obj k = .jnull ∨ getVal obj k = .str ""
         then pickNumber obj ks
         else if jsValCoerce (getVal obj k) = .nan then pickNumber obj ks
         else some (jsValCoerce (getVal obj k)))
      else pickNumber obj ks := rfl

theorem pickNumber_ne_nan (r : Row) :
    ∀ (keys : List String) (x : JsNum), pickNumber r keys = some x → x ≠ .nan := by
  intro keys
  induction keys with
  | nil => intro x h; simp [pickNumber] at h
  | cons k ks ih =>
    intro x h
    rw [pickNumber_cons] at h
    by_cases h1 : hasKey r k = true
    · rw [if_pos h1] at h
      by_cases h2 : getVal r k = .undefined ∨ getVal r k = .jnull ∨ getVal r k = .str ""
      · rw [if_pos h2] at h
        exact ih x h
      · rw [if_neg h2] at h
        by_cases h3 : jsValCoerce (getVal r k) = .nan
        · rw [if_pos h3] at h
          exact ih x h
        · rw [if_neg h3] at h
          injection h with h'
          rw [← h']
          exact h3
    · rw [if_neg h1] at h
      exact ih x h

theorem pickNumber_cons_none {r : Row} {k : String} {ks : List String}
    (h : pickNumber r (k :: ks) = none) : pickNumber r ks = none := by
  rw [pickNumber_cons] at h
  by_cases h1 : hasKey r k = true
  · rw [if_pos h1] at h
    by_cases h2 : getVal r k = .undefined ∨ getVal r k = .jnull ∨ getVal r k = .str ""
    · rwa [if_pos h2] at h
    · rw [if_neg h2] at h
      by_cases h3 : jsValCoerce (getVal r k) = .nan
      · rwa [if_pos h3] at h
      · rw [if_neg h3] at h
        exact absurd h (by simp)
  · rwa [if_neg h1] at h

theorem pickNumber_congr {a b : Row} :
    ∀ (keys : List String),
      (∀ key ∈ keys, hasKey a key = hasKey b key ∧ getVal a key = getVal b key) →
      pickNumber a keys = pickNumber b keys := by
  intro keys
  induction keys with
  | nil => intro _; rfl
  | cons k ks ih =>
    intro h
    have hk := h k (List.mem_cons_self k ks)
    have hks := ih fun key hkey => h key (List.mem_cons_of_mem _ hkey)
    rw [pickNumber_cons, pickNumber_cons, hk.1, hk.2, hks]

theorem normalizeOne_getVal_other (idx : Nat) (r : Row) (k : String)
    (h1 : k ≠ "id") (h2 : k ≠ "latitude") (h3 : k ≠ "longitude") (h4 : k ≠ "hpi")
    (h5 : k ≠ "hei") (h6 : k ≠ "cd") (h7 : k ≠ "category") :
    getVal (normalizeOne idx r) k = getVal r k := by
  unfold normalizeOne
  rw [getVal_setKey_ne _ _ h7, getVal_setKey_ne _ _ h6, getVal_setKey_ne _ _ h5,
    getVal_setKey_ne _ _ h4, getVal_setKey_ne _ _ h3, getVal_setKey_ne _ _ h2,
    getVal_setKey_ne _ _ h1]

theorem normalizeOne_hasKey_other (idx : Nat) (r : Row) (k : String)
    (h1 : k ≠ "id") (h2 : k ≠ "latitude") (h3 : k ≠ "longitude") (h4 : k ≠ "hpi")
    (h5 : k ≠ "hei") (h6 : k ≠ "cd") (h7 : k ≠ "category") :
    hasKey (normalizeOne idx r) k = hasKey r k := by
  unfold normalizeOne
  rw [hasKey_setKey_ne _ _ h7, hasKey_setKey_ne _ _ h6, hasKey_setKey_ne _ _ h5,
    hasKey_setKey_ne _ _ h4, hasKey_setKey_ne _ _ h3, hasKey_setKey_ne _ _ h2,
    hasKey_setKey_ne _ _ h1]

theorem normalizeOne_hasKey_lat (idx : Nat) (r : Row) :
    hasKey (normalizeOne idx r) "latitude" = true := by
  unfold normalizeOne
  rw [hasKey_setKey_ne _ _ (by decide), hasKey_setKey_ne _ _ (by decide),
    hasKey_setKey_ne _ _ (by decide), hasKey_setKey_ne _ _ (by decide),
    hasKey_setKey_ne _ _ (by decide)]
  exact hasKey_setKey_self _ _ _

theorem normalizeOne_hasKey_lon (idx : Nat) (r : Row) :
    hasKey (normalizeOne idx r) "longitude" = true := by
  unfold normalizeOne
  rw [hasKey_setKey_ne _ _ (by decide), hasKey_setKey_ne _ _ (by decide),
    hasKey_setKey_ne _ _ (by decide), hasKey_setKey_ne _ _ (by decide)]
  exact hasKey_setKey_self _ _ _

theorem normalizeOne_hasKey_hpi (idx : Nat) (r : Row) :
    hasKey (normalizeOne idx r) "hpi" = true := by
  unfold normalizeOne
  rw [hasKey_setKey_ne _ _ (by decide), hasKey_setKey_ne _ _ (by decide),
    hasKey_setKey_ne _ _ (by decide)]
  exact hasKey_setKey_self _ _ _

theorem normalizeOne_hasKey_hei (idx : Nat) (r : Row) :
    hasKey (normalizeOne idx r) "hei" = true := by
  unfold normalizeOne
  rw [hasKey_setKey_ne _ _ (by decide), hasKey_setKey_ne _ _ (by decide)]
  exact hasKey_setKey_self _ _ _

theorem normalizeOne_hasKey_cd (idx : Nat) (r : Row) :
    hasKey (normalizeOne idx r) "cd" = true := by
  unfold normalizeOne
  rw [hasKey_setKey_ne _ _ (by decide)]
  exact hasKey_setKey_self _ _ _

theorem pickNumber_normalizeOne_lat (idx : Nat) (r : Row) :
    pickNumber (normalizeOne idx r) latKeys = pickNumber r latKeys := by
  have hhas := normalizeOne_hasKey_lat idx r
  have hval := normalizeOne_lat idx r
  have hrest : ∀ key ∈ ["Latitude", "lat", "Lat"],
      hasKey (normalizeOne idx r) key = hasKey r key ∧
      getVal (normalizeOne idx r) key = getVal r key := by
    intro key hk
    fin_cases hk <;>
      exact ⟨normalizeOne_hasKey_other idx r _ (by decide) (by decide) (by decide)
          (by decide) (by decide) (by decide) (by decide),
        normalizeOne_getVal_other idx r _ (by decide) (by decide) (by decide)
          (by decide) (by decide) (by decide) (by decide)⟩
  have hlk : latKeys = "latitude" :: ["Latitude", "lat", "Lat"] := rfl
  cases hp : pickNumber r latKeys with
  | some x =>
    have hx := pickNumber_ne_nan r latKeys x hp
    rw [hlk, pickNumber_cons, if_pos hhas, hval, hp]
    simp [optNumToJVal, jsValCoerce, hx]
  | none =>
    have htail : pickNumber r ["Latitude", "lat", "Lat"] = none :=
      pickNumber_cons_none (hlk ▸ hp)
    have hcongr := pickNumber_congr ["Latitude", "lat", "Lat"] hrest
    rw [hlk, pickNumber_cons, if_pos hhas, hval, hp]
    simp only [optNumToJVal]
    rw [if_pos (by simp), hcongr, htail]

theorem pickNumber_normalizeOne_lon (idx : Nat) (r : Row) :
    pickNumber (normalizeOne idx r) lonKeys = pickNumber r lonKeys := by
  have hhas := normalizeOne_hasKey_lon idx r
  have hval := normalizeOne_lon idx r
  have hrest : ∀ key ∈ ["Longitude", "lon", "lng", "Lon", "Lng"],
      hasKey (normalizeOne idx r) key = hasKey r key ∧
      getVal (normalizeOne idx r) key = getVal r key := by
    intro key hk
    fin_cases hk <;>
      exact ⟨normalizeOne_hasKey_other idx r _ (by decide) (by decide) (by decide)
          (by decide) (by decide) (by decide) (by decide),
        normalizeOne_getVal_other idx r _ (by decide) (by decide) (by decide)
          (by decide) (by decide) (by decide) (by decide)⟩
  have hlk : lonKeys = "longitude" :: ["Longitude", "lon", "lng", "Lon", "Lng"] := rfl
  cases hp : pickNumber r lonKeys with
  | some x =>
    have hx := pickNumber_ne_nan r lonKeys x hp
    rw [hlk, pickNumber_cons, if_pos hhas, hval, hp]
    simp [optNumToJVal, jsValCoerce, hx]
  | none =>
    have htail : pickNumber r ["Longitude", "lon", "lng", "Lon", "Lng"] = none :=
      pickNumber_cons_none (hlk ▸ hp)
    have hcongr := pickNumber_congr ["Longitude", "lon", "lng", "Lon", "Lng"] hrest
    rw [hlk, pickNumber_cons, if_pos hhas, hval, hp]
    simp only [optNumToJVal]
    rw [if_pos (by simp), hcongr, htail]

theorem pickNumericAlt_normalizeOne_hpi (idx : Nat) (r : Row) :
    pickNumericAlt (normalizeOne idx r) hpiKeys = pickNumericAlt r hpiKeys := by
  rw [pickNumericAlt_eq_pickNumber, pickNumericAlt_eq_pickNumber]
  have hhas := normalizeOne_hasKey_hpi idx r
  have hval := normalizeOne_hpi idx r
  rw [pickNumericAlt_eq_pickNumber] at hval
  have hrest : ∀ key ∈ ["HPI", "hpi_value", "hpiValue", "hpi_val"],
      hasKey (normalizeOne idx r) key = hasKey r key ∧
      getVal (normalizeOne idx r) key = getVal r key := by
    intro key hk
    fin_cases hk <;>
      exact ⟨normalizeOne_hasKey_other idx r _ (by decide) (by decide) (by decide)
          (by decide) (by decide) (by decide) (by decide),
        normalizeOne_getVal_other idx r _ (by decide) (by decide) (by decide)
          (by decide) (by decide) (by decide) (by decide)⟩
  have hlk : hpiKeys = "hpi" :: ["HPI", "hpi_value", "hpiValue", "hpi_val"] := rfl
  cases hp : pickNumber r hpiKeys with
  | some x =>
    have hx := pickNumber_ne_nan r hpiKeys x hp
    rw [hlk, pickNumber_cons, if_pos hhas, hval, hp]
    simp [optNumToJVal, jsValCoerce, hx]
  | none =>
    have htail : pickNumber r ["HPI", "hpi_value", "hpiValue", "hpi_val"] = none :=
      pickNumber_cons_none (hlk ▸ hp)
    have hcongr := pickNumber_congr ["HPI", "hpi_value", "hpiValue", "hpi_val"] hrest
    rw [hlk, pickNumber_cons, if_pos hhas, hval, hp]
    simp only [optNumToJVal]
    rw [if_pos (by simp), hcongr, htail]

theorem pickNumericAlt_normalizeOne_hei (idx : Nat) (r : Row) :
    pickNumericAlt (normalizeOne idx r) heiKeys = pickNumericAlt r heiKeys := by
  rw [pickNumericAlt_eq_pickNumber, pickNumericAlt_eq_pickNumber]
  have hhas := normalizeOne_hasKey_hei idx r
  have hval := normalizeOne_hei idx r
  rw [pickNumericAlt_eq_pickNumber] at hval
  have hrest : ∀ key ∈ ["HEI", "hei_value", "heiValue"],
      hasKey (normalizeOne idx r) key = hasKey r key ∧
      getVal (normalizeOne idx r) key = getVal r key := by
    intro key hk
    fin_cases hk <;>
      exact ⟨normalizeOne_hasKey_other idx r _ (by decide) (by decide) (by decide)
          (by decide) (by decide) (by decide) (by decide),
        normalizeOne_getVal_other idx r _ (by decide) (by decide) (by decide)
          (by decide) (by decide) (by decide) (by decide)⟩
  have hlk : heiKeys = "hei" :: ["HEI", "hei_value", "heiValue"] := rfl
  cases hp : pickNumber r heiKeys with
  | some x =>
    have hx := pickNumber_ne_nan r heiKeys x hp
    rw [hlk, pickNumber_cons, if_pos hhas, hval, hp]
    simp [optNumToJVal, jsValCoerce, hx]
  | none =>
    have htail : pickNumber r ["HEI", "hei_value", "heiValue"] = none :=
      pickNumber_cons_none (hlk ▸ hp)
    have hcongr := pickNumber_congr ["HEI", "hei_value", "heiValue"] hrest
    rw [hlk, pickNumber_cons, if_pos hhas, hval, hp]
    simp only [optNumToJVal]
    rw [if_pos (by simp), hcongr, htail]

theorem pickNumericAlt_normalizeOne_cd (idx : Nat) (r : Row) :
    pickNumericAlt (normalizeOne idx r) cdKeys = pickNumericAlt r cdKeys := by
  rw [pickNumericAlt_eq_pickNumber, pickNumericAlt_eq_pickNumber]
  have hhas := normalizeOne_hasKey_cd idx r
  have hval := normalizeOne_cd idx r
  rw [pickNumericAlt_eq_pickNumber] at hval
  have hrest : ∀ key ∈ ["Cd", "contamination_degree", "contaminationDegree"],
      hasKey (normalizeOne idx r) key = hasKey r key ∧
      getVal (normalizeOne idx r) key = getVal r key := by
    intro key hk
    fin_cases hk <;>
      exact ⟨normalizeOne_hasKey_other idx r _ (by decide) (by decide) (by decide)
          (by decide) (by decide) (by decide) (by decide),
        normalizeOne_getVal_other idx r _ (by decide) (by decide) (by decide)
          (by decide) (by decide) (by decide) (by decide)⟩
  have hlk : cdKeys = "cd" :: ["Cd", "contamination_degree", "contaminationDegree"] := rfl
  cases hp : pickNumber r cdKeys with
  | some x =>
    have hx := pickNumber_ne_nan r cdKeys x hp
    rw [hlk, pickNumber_cons, if_pos hhas, hval, hp]
    simp [optNumToJVal, jsValCoerce, hx]
  | none =>
    have htail : pickNumber r ["Cd", "contamination_degree", "contaminationDegree"] = none :=
      pickNumber_cons_none (hlk ▸ hp)
    have hcongr := pickNumber_congr ["Cd", "contamination_degree", "contaminationDegree"] hrest
    rw [hlk, pickNumber_cons, if_pos hhas, hval, hp]
    simp only [optNumToJVal]
    rw [if_pos (by simp), hcongr, htail]

theorem numericFields_idem (idx : Nat) (r : Row) :
    numericFields (normalizeOne idx (normalizeOne idx r)) =
      numericFields (normalizeOne idx r) := by
  unfold numericFields
  rw [normalizeOne_lat idx (normalizeOne idx r), pickNumber_normalizeOne_lat,
    normalizeOne_lon idx (normalizeOne idx r), pickNumber_normalizeOne_lon,
    normalizeOne_hpi idx (normalizeOne idx r), pickNumericAlt_normalizeOne_hpi,
    normalizeOne_hei idx (normalizeOne idx r), pickNumericAlt_normalizeOne_hei,
    normalizeOne_cd idx (normalizeOne idx r), pickNumericAlt_normalizeOne_cd,
    normalizeOne_lat idx r, normalizeOne_lon idx r, normalizeOne_hpi idx r,
    normalizeOne_hei idx r, normalizeOne_cd idx r]

/-- C9: rehydrating an already-normalized sequence leaves every numeric field
unchanged. -/
theorem normalize_idempotent (raw : List Row) :
    (normalizeResults (normalizeResults raw)).map numericFields =
      (normalizeResults raw).map numericFields := by
  unfold normalizeResults
  have h : ∀ (l : List Row) (i0 : Nat),
      (mapWithIndex normalizeOne i0 (mapWithIndex normalizeOne i0 l)).map numericFields =
        (mapWithIndex normalizeOne i0 l).map numericFields := by
    intro l
    induction l with
    | nil => intro _; rfl
    | cons a as ih =>
      intro i0
      simp only [mapWithIndex, List.map_cons]
      rw [numericFields_idem, ih (i0 + 1)]
  exact h raw 0

end Results

end Aquora

namespace Aquora

theorem hasKey_of_mem_rowKeys {r : Row} {k : String} (h : k ∈ rowKeys r) :
    hasKey r k = true := by
  induction r with
  | nil => simp [rowKeys] at h
  | cons p rest ih =>
    rw [hasKey_cons]
    simp only [rowKeys, List.map_cons, List.mem_cons] at h
    rcases h with h | h
    · rw [h]
      simp
    · rw [ih h]
      simp

theorem mem_mapWithIndex {f : Nat → α → β} :
    ∀ {l : List α} {i0 : Nat} {b : β}, b ∈ mapWithIndex f i0 l →
      ∃ i a, a ∈ l ∧ b = f i a := by
  intro l
  induction l with
  | nil => intro i0 b h; simp [mapWithIndex] at h
  | cons x xs ih =>
    intro i0 b h
    rw [mapWithIndex] at h
    rcases List.mem_cons.mp h with h | h
    · exact ⟨i0, x, List.mem_cons_self x xs, h⟩
    · obtain ⟨i, a, ha, hb⟩ := ih h
      exact ⟨i, a, List.mem_cons_of_mem _ ha, hb⟩

theorem mapWithIndex_map_congr (f : Nat → α → β) (g : α → α) :
    ∀ (l : List α) (i0 : Nat), (∀ a ∈ l, ∀ i, f i a = f i (g a)) →
      mapWithIndex f i0 l = mapWithIndex f i0 (l.map g) := by
  intro l
  induction l with
  | nil => intro _ _; rfl
  | cons x xs ih =>
    intro i0 h
    simp only [List.map_cons, mapWithIndex]
    rw [← h x (List.mem_cons_self x xs) i0,
      ih (i0 + 1) (fun a ha i => h a (List.mem_cons_of_mem _ ha) i)]

namespace Calculations

/-- One unfolding step of the calculator-side `pickNumber`. -/
theorem pickNumber_calc_cons (sample : Row) (key : String) (ks : List String) :
    pickNumber sample (key :: ks) =
      if hasKey sample key then
        (match parseNumber (getVal sample key) with
         | some val => some val
         | none => pickNumber sample ks)
      else pickNumber sample ks := rfl

theorem pickNumber_calc_congr {a b : Row} :
    ∀ (keys : List String),
      (∀ key ∈ keys, hasKey a key = hasKey b key ∧ getVal a key = getVal b key) →
      pickNumber a keys = pickNumber b keys := by
  intro keys
  induction keys with
  | nil => intro _; rfl
  | cons k ks ih =>
    intro h
    have hk := h k (List.mem_cons_self k ks)
    have hks := ih fun key hkey => h key (List.mem_cons_of_mem _ hkey)
    rw [pickNumber_calc_cons, pickNumber_calc_cons, hk.1, hk.2, hks]

theorem calculateHPI_congr {a b : Row} (cols : List String)
    (hm : ∀ m ∈ cols, getVal a m = getVal b m) :
    calculateHPI a cols = calculateHPI b cols := by
  unfold calculateHPI
  have h : ∀ (l : List String) (acc : JsNum × ℚ),
      (∀ m ∈ l, getVal a m = getVal b m) →
      l.foldl (hpiStep a) acc = l.foldl (hpiStep b) acc := by
    intro l
    induction l with
    | nil => intro _ _; rfl
    | cons m ms ih =>
      intro acc h
      simp only [List.foldl_cons]
      have hstep : hpiStep a acc m = hpiStep b acc m := by
        unfold hpiStep
        rw [h m (List.mem_cons_self m ms)]
      rw [hstep, ih _ (fun x hx => h x (List.mem_cons_of_mem _ hx))]
  rw [h cols _ hm]

theorem calculateHEI_congr {a b : Row} (cols : List String)
    (hm : ∀ m ∈ cols, getVal a m = getVal b m) :
    calculateHEI a cols = calculateHEI b cols := by
  unfold calculateHEI
  have h : ∀ (l : List String) (acc : JsNum),
      (∀ m ∈ l, getVal a m = getVal b m) →
      l.foldl (heiStep a) acc = l.foldl (heiStep b) acc := by
    intro l
    induction l with
    | nil => intro _ _; rfl
    | cons m ms ih =>
      intro acc h
      simp only [List.foldl_cons]
      have hstep : heiStep a acc m = heiStep b acc m := by
        unfold heiStep
        rw [h m (List.mem_cons_self m ms)]
      rw [hstep, ih _ (fun x hx => h x (List.mem_cons_of_mem _ hx))]
  rw [h cols _ hm]

theorem calculateCd_congr {a b : Row} (cols : List String)
    (hm : ∀ m ∈ cols, getVal a m = getVal b m) :
    calculateCd a cols = calculateCd b cols := by
  unfold calculateCd
  have h : ∀ (l : List String) (acc : JsNum),
      (∀ m ∈ l, getVal a m = getVal b m) →
      l.foldl (cdStep a) acc = l.foldl (cdStep b) acc := by
    intro l
    induction l with
    | nil => intro _ _; rfl
    | cons m ms ih =>
      intro acc h
      simp only [List.foldl_cons]
      have hstep : cdStep a acc m = cdStep b acc m := by
        unfold cdStep
        rw [h m (List.mem_cons_self m ms)]
      rw [hstep, ih _ (fun x hx => h x (List.mem_cons_of_mem _ hx))]
  rw [h cols _ hm]

theorem processOne_congr (cols : List String) (idx : Nat) {a b : Row}
    (hm : ∀ m ∈ cols, getVal a m = getVal b m)
    (hid : getVal a "id" = getVal b "id")
    (hco : ∀ key ∈ ["latitude", "Latitude", "lat", "longitude", "Longitude", "lon", "lng"],
      hasKey a key = hasKey b key ∧ getVal a key = getVal b key) :
    processOne cols idx a = processOne cols idx b := by
  have h1 := calculateHPI_congr cols hm
  have h2 := calculateHEI_congr cols hm
  have h3 := calculateCd_congr cols hm
  have h4 : resolveId a idx = resolveId b idx := by
    unfold resolveId
    rw [hid]
  have h5 : pickNumber a ["latitude", "Latitude", "lat"] =
      pickNumber b ["latitude", "Latitude", "lat"] := by
    refine pickNumber_calc_congr _ ?_
    intro key hk
    fin_cases hk <;> exact hco _ (by decide)
  have h6 : pickNumber a ["longitude", "Longitude", "lon", "lng"] =
      pickNumber b ["longitude", "Longitude", "lon", "lng"] := by
    refine pickNumber_calc_congr _ ?_
    intro key hk
    fin_cases hk <;> exact hco _ (by decide)
  have h7 : cols.map (fun metal => (metal, orZero (parseNumber (getVal a metal)))) =
      cols.map (fun metal => (metal, orZero (parseNumber (getVal b metal)))) := by
    refine List.map_congr_left ?_
    intro m hmem
    rw [hm m hmem]
  unfold processOne
  rw [h1, h2, h3, h4, h5, h6, h7]

theorem excludeKeys_contains_eq (s : String) :
    excludeKeys.contains s =
      (["id", "latitude", "longitude", "lat", "lon", "lng"]).contains s := by
  have he : excludeKeys =
      ["id", "latitude", "longitude", "lat", "lon", "lng", "latitude", "longitude"] := by
    decide
  rw [he]
  by_cases h1 : s = "latitude" <;> by_cases h2 : s = "longitude" <;>
    simp [List.contains_cons, h1, h2]

/-- C6: the metal-column set is the first row's keys minus (case-insensitively)
the fixed metadata set {id, latitude, longitude, lat, lon, lng}, computed once
and applied to every row: a column absent from row 0 is ignored in every later
row even where it has a value, and every result's metals map is keyed exactly
by row 0's inferred columns. -/
theorem metal_columns_frozen (r0 : Row) (rest : List Row) (k : String)
    (hk : hasKey r0 k = false)
    (hx : excludeKeys.contains (toLowerCase k) = false) :
    metalColumnsOf r0 = (rowKeys r0).filter (fun key =>
      !((["id", "latitude", "longitude", "lat", "lon", "lng"]).contains
        (toLowerCase key))) ∧
    processWaterSamples (r0 :: rest) =
      processWaterSamples (r0 :: rest.map (eraseKey k)) ∧
    ∀ r ∈ processWaterSamples (r0 :: rest),
      r.metals.map Prod.fst = metalColumnsOf r0 := by
  refine ⟨?_, ?_⟩
  · unfold metalColumnsOf
    refine List.filter_congr ?_
    intro key _
    rw [excludeKeys_contains_eq (toLowerCase key)]
  have hmet : ∀ m ∈ metalColumnsOf r0, m ≠ k := by
    intro m hm hmk
    have hmem : m ∈ rowKeys r0 := List.mem_of_mem_filter hm
    rw [hmk] at hmem
    rw [hasKey_of_mem_rowKeys hmem] at hk
    exact absurd hk (by simp)
  have hne : ∀ c ∈ ["id", "latitude", "Latitude", "lat", "longitude", "Longitude",
      "lon", "lng"], k ≠ c := by
    intro c hc h
    subst h
    fin_cases hc <;> exact absurd hx (by decide)
  have hrow : ∀ (s : Row) (i : Nat),
      processOne (metalColumnsOf r0) i s = processOne (metalColumnsOf r0) i (eraseKey k s) := by
    intro s i
    refine processOne_congr _ _ ?_ ?_ ?_
    · intro m hm
      exact (getVal_eraseKey_ne s (hmet m hm)).symm
    · exact (getVal_eraseKey_ne s (Ne.symm (hne "id" (by decide)))).symm
    · intro key hkey
      have hkne : key ≠ k := by
        fin_cases hkey <;> exact fun h => (hne _ (by decide)) h.symm
      exact ⟨(hasKey_eraseKey_ne s hkne).symm, (getVal_eraseKey_ne s hkne).symm⟩
  constructor
  · show mapWithIndex (processOne (metalColumnsOf r0)) 0 (r0 :: rest) =
      mapWithIndex (processOne (metalColumnsOf r0)) 0 (r0 :: rest.map (eraseKey k))
    rw [mapWithIndex, mapWithIndex]
    rw [mapWithIndex_map_congr _ _ rest 1 (fun a _ i => hrow a i)]
  · intro r hr
    obtain ⟨i, a, _, rfl⟩ := mem_mapWithIndex hr
    show ((metalColumnsOf r0).map (fun metal =>
      (metal, orZero (parseNumber (getVal a metal))))).map Prod.fst = metalColumnsOf r0
    have hcomp : (Prod.fst ∘ fun metal =>
        (metal, orZero (parseNumber (getVal a metal)))) = id := rfl
    rw [List.map_map, hcomp, List.map_id]

/-- C6 witness: the spec's frozen-schema scenario; `S2`'s `Cd` cell is ignored
because row 0 lacks the column. -/
theorem metal_columns_frozen_witness :
    metalColumnsOf c6Row0 = (rowKeys c6Row0).filter (fun key =>
      !((["id", "latitude", "longitude", "lat", "lon", "lng"]).contains
        (toLowerCase key))) ∧
    processWaterSamples [c6Row0, c6Row1] =
      processWaterSamples (c6Row0 :: [c6Row1].map (eraseKey "Cd")) ∧
    ∀ r ∈ processWaterSamples [c6Row0, c6Row1],
      r.metals.map Prod.fst = metalColumnsOf c6Row0 :=
  metal_columns_frozen c6Row0 [c6Row1] "Cd" (by decide) (by decide)

end Calculations

end Aquora
